import Mathlib

/-!
Shallow embedding of the edge-detection pixel pipeline of this repository.

The repository contains two near-duplicate implementations of the pipeline:
* `web/src/utils/imageProcessor.ts` (class `ImageProcessor`), embedded here with
  the `IP` suffix, and
* the `FrameViewer` component (`frameViewer.ts`), embedded here with the `FV`
  suffix.

An `ImageData` object is modelled as a width, a height, and a total function
from flat byte index to sample value; index `(y * width + x) * 4 + c` holds
channel `c` of pixel `(x, y)`, exactly as the `Uint8ClampedArray` backing an
`ImageData` does.  JavaScript float arithmetic is modelled by exact `ℚ`
arithmetic where the source only uses rational constants, and by `ℝ`
(with `Real.exp` / `Real.sqrt` for `Math.exp` / `Math.sqrt`) elsewhere.
Stores into a `Uint8ClampedArray` go through `uint8Clamp`, the ECMAScript
`ToUint8Clamp` conversion (clamp to `[0, 255]`, round half to even).
-/

/-- Model of an `ImageData` object: dimensions plus the backing
`Uint8ClampedArray`, as a total function from flat index to stored sample. -/
structure ImageDataQ where
  width : ℕ
  height : ℕ
  data : ℕ → ℕ

/-- Round to nearest integer, ties to even: the rounding used by the
ECMAScript `ToUint8Clamp` abstract operation when storing into a
`Uint8ClampedArray`. -/
def roundHalfEven {α : Type} [LinearOrderedField α] [FloorRing α] (x : α) : ℤ :=
  if x - (⌊x⌋ : α) < 1/2 then ⌊x⌋
  else if (1/2 : α) < x - (⌊x⌋ : α) then ⌊x⌋ + 1
  else if ⌊x⌋ % 2 = 0 then ⌊x⌋ else ⌊x⌋ + 1

/-- The ECMAScript `ToUint8Clamp` conversion performed by every store into a
`Uint8ClampedArray`: clamp to `[0, 255]`, then round half to even. -/
def uint8Clamp {α : Type} [LinearOrderedField α] [FloorRing α] (x : α) : ℕ :=
  if x ≤ 0 then 0 else if 255 ≤ x then 255 else (roundHalfEven x).toNat

/-- `ImageProcessor.convertToGrayscale` (imageProcessor.ts lines 48–57), which
is byte-for-byte the same per-pixel transform as the grayscale loop in
`FrameViewer.processImage` (frameViewer.ts lines 145–150): every pixel's
R, G, B channels are overwritten with
`data[i]*0.299 + data[i+1]*0.587 + data[i+2]*0.114`; alpha is untouched.
The loop writes each pixel from that pixel's own prior values only, so the
in-place update is the pointwise map below. -/
def convertToGrayscale (img : ImageDataQ) : ImageDataQ :=
  ⟨img.width, img.height, fun i =>
    if i % 4 = 3 then img.data i
    else uint8Clamp ((img.data (4 * (i / 4)) : ℚ) * 0.299
      + (img.data (4 * (i / 4) + 1) : ℚ) * 0.587
      + (img.data (4 * (i / 4) + 2) : ℚ) * 0.114)⟩

/-- `Math.min(Math.max(t, 0), n - 1)`: the coordinate clamping used by
`ImageProcessor.applyGaussianBlur` (imageProcessor.ts lines 78–79). -/
def clampCoord (t : ℤ) (n : ℕ) : ℕ := (min (max t 0) ((n : ℤ) - 1)).toNat

/-- One cell of the kernel built by `ImageProcessor.createGaussianKernel`
(imageProcessor.ts lines 101–115): for array indices `(a, b)` (row, column),
`exp(-(dx² + dy²) / (2σ²))` with `dx = b - center`, `dy = a - center`,
`center = Math.floor(size / 2)`, and `σ = kernelSize / 3` as computed by the
caller (line 67). -/
noncomputable def gaussianWeight (kernelSize a b : ℤ) : ℝ :=
  Real.exp (-(((b : ℝ) - ((Int.fdiv kernelSize 2 : ℤ) : ℝ)) ^ 2
      + ((a : ℝ) - ((Int.fdiv kernelSize 2 : ℤ) : ℝ)) ^ 2)
    / (2 * ((kernelSize : ℝ) / 3) ^ 2))

/-- `ImageProcessor.applyGaussianBlur` (imageProcessor.ts lines 59–99): for
each output pixel, sum `data[idx + c] * weight` over the whole
`(2·radius+1)²` kernel window with the sample coordinates clamped into the
buffer (`Math.min(Math.max(x+kx,0),width-1)`, same for `y`), divide by the sum
of all kernel weights, and store.  `radius = Math.floor(kernelSize / 2)`;
the output alpha is copied from the input pixel (line 94).  The loop writes a
fresh `output` ImageData while reading `data`, so it is the pointwise map
below. -/
noncomputable def applyGaussianBlurIP (img : ImageDataQ) (kernelSize : ℤ) : ImageDataQ :=
  ⟨img.width, img.height, fun i =>
    if i % 4 = 3 then img.data i
    else
      uint8Clamp
        ((Finset.sum (Finset.Icc (-(Int.fdiv kernelSize 2)) (Int.fdiv kernelSize 2)) fun ky =>
          Finset.sum (Finset.Icc (-(Int.fdiv kernelSize 2)) (Int.fdiv kernelSize 2)) fun kx =>
            (img.data ((clampCoord (((i / 4 / img.width : ℕ) : ℤ) + ky) img.height * img.width
                + clampCoord (((i / 4 % img.width : ℕ) : ℤ) + kx) img.width) * 4 + i % 4) : ℝ)
              * gaussianWeight kernelSize (ky + Int.fdiv kernelSize 2) (kx + Int.fdiv kernelSize 2)) /
        (Finset.sum (Finset.Icc (-(Int.fdiv kernelSize 2)) (Int.fdiv kernelSize 2)) fun ky =>
          Finset.sum (Finset.Icc (-(Int.fdiv kernelSize 2)) (Int.fdiv kernelSize 2)) fun kx =>
            gaussianWeight kernelSize (ky + Int.fdiv kernelSize 2) (kx + Int.fdiv kernelSize 2)))⟩

/-- `FrameViewer.applyGaussianBlur` (frameViewer.ts lines 174–204): a box
average over the `(2·size+1)²` window in which samples falling outside the
buffer are skipped (`nx >= 0 && nx < width && ny >= 0 && ny < height`) and the
divisor is `count`, the number of in-bounds samples; alpha is not written.
The loop reads from `temp`, a snapshot copy of `data`, so it is the pointwise
map below. -/
def applyGaussianBlurFV (img : ImageDataQ) (size : ℤ) : ImageDataQ :=
  ⟨img.width, img.height, fun i =>
    if i % 4 = 3 then img.data i
    else
      uint8Clamp
        ((Finset.sum (Finset.Icc (-size) size) fun dy =>
          Finset.sum (Finset.Icc (-size) size) fun dx =>
            if 0 ≤ ((i / 4 % img.width : ℕ) : ℤ) + dx ∧ ((i / 4 % img.width : ℕ) : ℤ) + dx < (img.width : ℤ)
                ∧ 0 ≤ ((i / 4 / img.width : ℕ) : ℤ) + dy ∧ ((i / 4 / img.width : ℕ) : ℤ) + dy < (img.height : ℤ)
            then (img.data (((((i / 4 / img.width : ℕ) : ℤ) + dy).toNat * img.width
                + ((((i / 4 % img.width : ℕ) : ℤ)) + dx).toNat) * 4 + i % 4) : ℚ)
            else 0) /
        (Finset.sum (Finset.Icc (-size) size) fun dy =>
          Finset.sum (Finset.Icc (-size) size) fun dx =>
            if 0 ≤ ((i / 4 % img.width : ℕ) : ℤ) + dx ∧ ((i / 4 % img.width : ℕ) : ℤ) + dx < (img.width : ℤ)
                ∧ 0 ≤ ((i / 4 / img.width : ℕ) : ℤ) + dy ∧ ((i / 4 / img.width : ℕ) : ℤ) + dy < (img.height : ℤ)
            then (1 : ℚ) else 0))⟩

/-- Number of samples of the `(2r+1)×(2r+1)` window centred on pixel `(x, y)`
that land inside a `wd × ht` buffer.  Window offsets are pairs `(dy, dx)`. -/
def inBoundsCount (wd ht x y : ℕ) (r : ℤ) : ℕ :=
  ((Finset.Icc (-r) r ×ˢ Finset.Icc (-r) r).filter (fun d =>
    0 ≤ (x : ℤ) + d.2 ∧ (x : ℤ) + d.2 < (wd : ℤ)
      ∧ 0 ≤ (y : ℤ) + d.1 ∧ (y : ℤ) + d.1 < (ht : ℤ))).card

/-- Modelled from the spec (§4.2 Smoothing Stage), for comparison with the
source implementations: each output pixel is the average of the input pixels
in the `(2r+1)×(2r+1)` square neighborhood centred on it, where neighborhood
samples falling outside the buffer are excluded and the divisor is the count
of in-bounds contributing samples only; uniform (box) weighting; alpha copied
through unaffected. -/
def specBoxBlur (img : ImageDataQ) (r : ℤ) : ImageDataQ :=
  ⟨img.width, img.height, fun i =>
    if i % 4 = 3 then img.data i
    else
      uint8Clamp
        ((Finset.sum ((Finset.Icc (-r) r ×ˢ Finset.Icc (-r) r).filter (fun d =>
            0 ≤ ((i / 4 % img.width : ℕ) : ℤ) + d.2 ∧ ((i / 4 % img.width : ℕ) : ℤ) + d.2 < (img.width : ℤ)
              ∧ 0 ≤ ((i / 4 / img.width : ℕ) : ℤ) + d.1 ∧ ((i / 4 / img.width : ℕ) : ℤ) + d.1 < (img.height : ℤ)))
          fun d => (img.data (((((i / 4 / img.width : ℕ) : ℤ) + d.1).toNat * img.width
              + ((((i / 4 % img.width : ℕ) : ℤ)) + d.2).toNat) * 4 + i % 4) : ℚ)) /
        ((inBoundsCount img.width img.height (i / 4 % img.width) (i / 4 / img.width) r : ℕ) : ℚ))⟩

/-- Modelled from the spec (§4.2 Smoothing Stage, Gaussian policy), for
comparison with `applyGaussianBlurIP`: the weighted average with Gaussian
falloff `exp(-(dx² + dy²) / (2σ²))`, `σ = r / 3`, in which samples falling
outside the buffer are excluded and the divisor is the weight sum of the
in-bounds contributing samples only; alpha copied through unaffected. -/
noncomputable def specGaussExclusionBlur (img : ImageDataQ) (r : ℤ) : ImageDataQ :=
  ⟨img.width, img.height, fun i =>
    if i % 4 = 3 then img.data i
    else
      uint8Clamp
        ((Finset.sum (Finset.Icc (-r) r) fun dy =>
          Finset.sum (Finset.Icc (-r) r) fun dx =>
            if 0 ≤ ((i / 4 % img.width : ℕ) : ℤ) + dx ∧ ((i / 4 % img.width : ℕ) : ℤ) + dx < (img.width : ℤ)
                ∧ 0 ≤ ((i / 4 / img.width : ℕ) : ℤ) + dy ∧ ((i / 4 / img.width : ℕ) : ℤ) + dy < (img.height : ℤ)
            then (img.data (((((i / 4 / img.width : ℕ) : ℤ) + dy).toNat * img.width
                + ((((i / 4 % img.width : ℕ) : ℤ)) + dx).toNat) * 4 + i % 4) : ℝ)
              * Real.exp (-(((dx : ℝ)) ^ 2 + ((dy : ℝ)) ^ 2) / (2 * ((r : ℝ) / 3) ^ 2))
            else 0) /
        (Finset.sum (Finset.Icc (-r) r) fun dy =>
          Finset.sum (Finset.Icc (-r) r) fun dx =>
            if 0 ≤ ((i / 4 % img.width : ℕ) : ℤ) + dx ∧ ((i / 4 % img.width : ℕ) : ℤ) + dx < (img.width : ℤ)
                ∧ 0 ≤ ((i / 4 / img.width : ℕ) : ℤ) + dy ∧ ((i / 4 / img.width : ℕ) : ℤ) + dy < (img.height : ℤ)
            then Real.exp (-(((dx : ℝ)) ^ 2 + ((dy : ℝ)) ^ 2) / (2 * ((r : ℝ) / 3) ^ 2))
            else 0))⟩

/-- The `sobelX` kernel, `[-1, 0, 1, -2, 0, 2, -1, 0, 1]`
(imageProcessor.ts line 128, frameViewer.ts line 211). -/
def sobelXList : List ℤ := [-1, 0, 1, -2, 0, 2, -1, 0, 1]

/-- The `sobelY` kernel, `[-1, -2, -1, 0, 0, 0, 1, 2, 1]`
(imageProcessor.ts line 129, frameViewer.ts line 212). -/
def sobelYList : List ℤ := [-1, -2, -1, 0, 0, 0, 1, 2, 1]

/-- The `gx` accumulator of the Sobel convolution (identical in
imageProcessor.ts lines 133–145 and frameViewer.ts lines 216–227):
`gx += data[((y+ky)*width + (x+kx)) * 4] * sobelX[(ky+1)*3 + (kx+1)]`
over `ky, kx ∈ {-1, 0, 1}` — the red channel only.  (Both loops only
evaluate this at interior pixels, where every coordinate is in range.) -/
def sobelGx (img : ImageDataQ) (x y : ℕ) : ℤ :=
  Finset.sum (Finset.Icc (-1 : ℤ) 1) fun ky =>
    Finset.sum (Finset.Icc (-1 : ℤ) 1) fun kx =>
      (img.data ((((y : ℤ) + ky).toNat * img.width + ((x : ℤ) + kx).toNat) * 4) : ℤ)
        * sobelXList.getD ((ky + 1) * 3 + (kx + 1)).toNat 0

/-- The `gy` accumulator of the Sobel convolution; see `sobelGx`. -/
def sobelGy (img : ImageDataQ) (x y : ℕ) : ℤ :=
  Finset.sum (Finset.Icc (-1 : ℤ) 1) fun ky =>
    Finset.sum (Finset.Icc (-1 : ℤ) 1) fun kx =>
      (img.data ((((y : ℤ) + ky).toNat * img.width + ((x : ℤ) + kx).toNat) * 4) : ℤ)
        * sobelYList.getD ((ky + 1) * 3 + (kx + 1)).toNat 0

/-- `magnitude = Math.sqrt(gx * gx + gy * gy)` (imageProcessor.ts line 148,
frameViewer.ts line 230). -/
noncomputable def sobelMag (img : ImageDataQ) (x y : ℕ) : ℝ :=
  Real.sqrt ((sobelGx img x y * sobelGx img x y + sobelGy img x y * sobelGy img x y : ℤ) : ℝ)

/-- The double-threshold classification applied to a gradient magnitude
(imageProcessor.ts lines 152–158, frameViewer.ts lines 234–240):
`magnitude > highThreshold` gives 255, else `magnitude > lowThreshold`
gives 128, else 0. -/
noncomputable def classify (m : ℝ) (low high : ℚ) : ℕ :=
  if (high : ℝ) < m then 255 else if (low : ℝ) < m then 128 else 0

/-- A single store `d[i] = v` into a zero-based array modelled as a
function. -/
def writePixel (d : ℕ → ℕ) (i v : ℕ) : ℕ → ℕ := fun j => if j = i then v else d j

/-- The four stores the `ImageProcessor` Sobel loop performs for one interior
pixel `p` (imageProcessor.ts lines 151–159):
`output.data[outIdx] = output.data[outIdx+1] = output.data[outIdx+2] = v` and
`output.data[outIdx+3] = 255`, with `outIdx = 4p`. -/
def writeQuad (d : ℕ → ℕ) (p v : ℕ) : ℕ → ℕ :=
  writePixel (writePixel (writePixel (writePixel d (4 * p) v) (4 * p + 1) v) (4 * p + 2) v) (4 * p + 3) 255

/-- The pixel indices `y * width + x` visited by the Sobel double loop
`for (y = 1; y < height - 1; y++) for (x = 1; x < width - 1; x++)`, in loop
order. -/
def interiorPixels (w h : ℕ) : List ℕ :=
  (List.range (h - 2)).flatMap fun j => (List.range (w - 2)).map fun i => (j + 1) * w + (i + 1)

/-- `FrameViewer.applySobel` (frameViewer.ts lines 206–245): allocates a
zero-filled `Uint8ClampedArray(width * height)` and, for each interior pixel,
stores the classified magnitude of the Sobel gradient of the red channel at
`output[y * width + x]`; border pixels are never written. -/
noncomputable def applySobelFV (img : ImageDataQ) (lowThreshold highThreshold : ℚ) : ℕ → ℕ :=
  (interiorPixels img.width img.height).foldl
    (fun d p => writePixel d p
      (classify (sobelMag img (p % img.width) (p / img.width)) lowThreshold highThreshold))
    (fun _ => 0)

/-- `ImageProcessor.applySobelEdgeDetection` (imageProcessor.ts lines
117–164): allocates a zero-filled `ImageData` and, for each interior pixel,
stores the classified magnitude into the three color channels and 255 into
alpha; border pixels are never written (so the zero-filled allocation shows
through there, alpha included). -/
noncomputable def applySobelEdgeDetectionIP (img : ImageDataQ) (lowThreshold highThreshold : ℚ) : ImageDataQ :=
  ⟨img.width, img.height,
    (interiorPixels img.width img.height).foldl
      (fun d p => writeQuad d p
        (classify (sobelMag img (p % img.width) (p / img.width)) lowThreshold highThreshold))
      (fun _ => 0)⟩

/-- `ProcessingOptions` (imageProcessor.ts lines 1–7; `threshold1` is passed
as the low threshold and `threshold2` as the high threshold, lines 37–41). -/
structure ProcessingOptions where
  threshold1 : ℚ
  threshold2 : ℚ
  blurSize : ℤ
  grayscale : Bool
  edgeDetection : Bool

/-- `ImageProcessor.processImage` (imageProcessor.ts lines 23–46): grayscale
if `grayscale || edgeDetection`, then, if `edgeDetection`, Gaussian blur with
`options.blurSize` followed by Sobel with `(threshold1, threshold2)`.  There
is no validation of dimensions, thresholds, or blur size anywhere in the
function. -/
noncomputable def processImageIP (img : ImageDataQ) (options : ProcessingOptions) : ImageDataQ :=
  let processedData := if options.grayscale || options.edgeDetection then convertToGrayscale img else img
  if options.edgeDetection then
    applySobelEdgeDetectionIP (applyGaussianBlurIP processedData options.blurSize)
      options.threshold1 options.threshold2
  else processedData

/-- The caller's `ImageData` object as it stands after
`ImageProcessor.processImage` returns: `convertToGrayscale` writes into the
caller's array in place (imageProcessor.ts lines 48–57 mutate `imageData.data`
and return the same object), while `applyGaussianBlur` and
`applySobelEdgeDetection` write fresh `ImageData` allocations.  So the
caller's buffer holds the grayscale of its old contents whenever
`grayscale || edgeDetection`, and is untouched otherwise. -/
def processImageIPSourceAfter (img : ImageDataQ) (options : ProcessingOptions) : ImageDataQ :=
  if options.grayscale || options.edgeDetection then convertToGrayscale img else img

/-- `FrameViewer.processImage` (frameViewer.ts lines 141–172): grayscale in
place if `grayscale || edgeDetection`; if `edgeDetection`, box blur in place
with `blurSize`, then Sobel, then the edge map is copied back into all three
color channels of every pixel with alpha forced to 255 (lines 166–170). -/
noncomputable def processImageFV (img : ImageDataQ) (options : ProcessingOptions) : ImageDataQ :=
  let g := if options.grayscale || options.edgeDetection then convertToGrayscale img else img
  if options.edgeDetection then
    ⟨img.width, img.height, fun i =>
      if i % 4 = 3 then 255
      else applySobelFV (applyGaussianBlurFV g options.blurSize) options.threshold1 options.threshold2 (i / 4)⟩
  else g

/-- `FrameViewer.render` (frameViewer.ts lines 107–139): builds a fresh copy
`new ImageData(new Uint8ClampedArray(this.originalImageData.data), ...)` of
the stored original, runs `processImage` on that copy, and draws it.  The
first component models `this.originalImageData` after the call (it is never
passed to a stage, so it is returned unchanged); the second models the
displayed buffer. -/
noncomputable def renderFV (orig : ImageDataQ) (options : ProcessingOptions) : ImageDataQ × ImageDataQ :=
  (orig, processImageFV orig options)

/-- Backing-store contents given by a finite list of byte values (reads past
the end of a `Uint8ClampedArray` are modelled as 0). -/
def listData (l : List ℕ) : ℕ → ℕ := fun i => l.getD i 0

/-- A 1×1 buffer holding one pure red pixel `(255, 0, 0, 255)`. -/
def img1red : ImageDataQ := ⟨1, 1, listData [255, 0, 0, 255]⟩

/-- A 2×1 buffer: left pixel black `(0,0,0,255)`, right pixel white
`(255,255,255,255)`. -/
def twoByOne : ImageDataQ := ⟨2, 1, listData [0, 0, 0, 255, 255, 255, 255, 255]⟩

/-- The 3×3 intensity-step buffer of the spec's concrete scenario: left
column 0, right two columns 255 (alpha 255 everywhere). -/
def img3step : ImageDataQ :=
  ⟨3, 3, listData
    [0, 0, 0, 255, 255, 255, 255, 255, 255, 255, 255, 255,
     0, 0, 0, 255, 255, 255, 255, 255, 255, 255, 255, 255,
     0, 0, 0, 255, 255, 255, 255, 255, 255, 255, 255, 255]⟩

theorem roundHalfEven_le_floor_add_one {α : Type} [LinearOrderedField α] [FloorRing α]
    (x : α) : roundHalfEven x ≤ ⌊x⌋ + 1 := by
  unfold roundHalfEven
  split
  · omega
  · split
    · omega
    · split <;> omega

theorem floor_le_roundHalfEven {α : Type} [LinearOrderedField α] [FloorRing α]
    (x : α) : ⌊x⌋ ≤ roundHalfEven x := by
  unfold roundHalfEven
  split
  · omega
  · split
    · omega
    · split <;> omega

theorem roundHalfEven_intCast {α : Type} [LinearOrderedField α] [FloorRing α]
    (n : ℤ) : roundHalfEven (n : α) = n := by
  unfold roundHalfEven
  rw [Int.floor_intCast]
  split
  · rfl
  · exfalso
    simp only [sub_self] at *
    linarith [show (0:α) < 1/2 by norm_num]

theorem uint8Clamp_natCast {α : Type} [LinearOrderedField α] [FloorRing α]
    (n : ℕ) (h : n ≤ 255) : uint8Clamp ((n : ℕ) : α) = n := by
  unfold uint8Clamp
  split
  · rename_i h0
    have : (0:α) ≤ (n : α) := by positivity
    have : (n : α) = 0 := le_antisymm h0 this
    have : n = 0 := by exact_mod_cast this
    omega
  · split
    · rename_i h1 h2
      have : ((255:ℕ) : α) ≤ (n : α) := by exact_mod_cast h2
      have h3 : 255 ≤ n := by exact_mod_cast this
      omega
    · have : ((n : ℕ) : α) = ((n : ℤ) : α) := by push_cast; ring
      rw [this, roundHalfEven_intCast]
      simp

theorem uint8Clamp_le_255 {α : Type} [LinearOrderedField α] [FloorRing α]
    (x : α) : uint8Clamp x ≤ 255 := by
  unfold uint8Clamp
  split
  · omega
  · split
    · omega
    · rename_i h0 h1
      push_neg at h1
      have hf : ⌊x⌋ ≤ 254 := by
        have : ⌊x⌋ < 255 := by
          rw [Int.floor_lt]
          exact_mod_cast h1
        omega
      have := roundHalfEven_le_floor_add_one x
      omega

theorem uint8Clamp_le_nat {α : Type} [LinearOrderedField α] [FloorRing α]
    {x : α} {n : ℕ} (h : x < n) (hn : n ≤ 255) : uint8Clamp x ≤ n := by
  unfold uint8Clamp
  split
  · omega
  · split
    · rename_i h0 h1
      have : ((n:ℕ) : α) ≤ 255 := by exact_mod_cast hn
      linarith
    · have hf : ⌊x⌋ ≤ (n : ℤ) - 1 := by
        have : ⌊x⌋ < (n : ℤ) := by
          rw [Int.floor_lt]
          exact_mod_cast h
        omega
      have := roundHalfEven_le_floor_add_one x
      omega

theorem nat_le_uint8Clamp {α : Type} [LinearOrderedField α] [FloorRing α]
    {x : α} {n : ℕ} (h : (n : α) ≤ x) (hn : n ≤ 255) : n ≤ uint8Clamp x := by
  unfold uint8Clamp
  split
  · rename_i h0
    have : ((n:ℕ) : α) ≤ 0 := le_trans h h0
    have : n = 0 := by exact_mod_cast le_antisymm this (by positivity)
    omega
  · split
    · omega
    · have hf : (n : ℤ) ≤ ⌊x⌋ := by
        rw [Int.le_floor]
        exact_mod_cast h
      have := floor_le_roundHalfEven x
      omega

theorem pixel_div {w x y : ℕ} (hx : x < w) : (y * w + x) / w = y := by
  rw [Nat.mul_comm, Nat.mul_add_div (by omega : 0 < w), Nat.div_eq_of_lt hx]
  omega

theorem pixel_mod {w x y : ℕ} (hx : x < w) : (y * w + x) % w = x := by
  rw [Nat.mul_comm, Nat.mul_add_mod]
  exact Nat.mod_eq_of_lt hx

theorem writeQuad_eval (d : ℕ → ℕ) (p v j : ℕ) :
    writeQuad d p v j = if j / 4 = p then (if j % 4 = 3 then 255 else v) else d j := by
  unfold writeQuad writePixel
  split_ifs <;> omega

theorem foldl_writePixel_eval (val : ℕ → ℕ) :
    ∀ (ps : List ℕ) (d : ℕ → ℕ) (j : ℕ),
      (ps.foldl (fun d p => writePixel d p (val p)) d) j = if j ∈ ps then val j else d j := by
  intro ps
  induction ps with
  | nil => intro d j; simp
  | cons p rest ih =>
    intro d j
    simp only [List.foldl_cons, ih, List.mem_cons]
    by_cases hr : j ∈ rest
    · simp [hr]
    · by_cases hp : j = p
      · subst hp
        simp [hr, writePixel]
      · simp [hr, hp, writePixel]

theorem foldl_writeQuad_eval (val : ℕ → ℕ) :
    ∀ (ps : List ℕ) (d : ℕ → ℕ) (j : ℕ),
      (ps.foldl (fun d p => writeQuad d p (val p)) d) j
        = if j / 4 ∈ ps then (if j % 4 = 3 then 255 else val (j / 4)) else d j := by
  intro ps
  induction ps with
  | nil => intro d j; simp
  | cons p rest ih =>
    intro d j
    simp only [List.foldl_cons, ih, List.mem_cons]
    by_cases hr : j / 4 ∈ rest
    · simp [hr]
    · by_cases hp : j / 4 = p
      · rw [if_neg hr, writeQuad_eval, if_pos hp, if_pos (Or.inl hp), hp]
      · have hcond : ¬(j / 4 = p ∨ j / 4 ∈ rest) := by
          rintro (h | h)
          · exact hp h
          · exact hr h
        rw [if_neg hr, writeQuad_eval, if_neg hp, if_neg hcond]

theorem mem_interiorPixels {w h x y : ℕ} (hx : x < w) :
    y * w + x ∈ interiorPixels w h ↔ (1 ≤ x ∧ x + 1 < w ∧ 1 ≤ y ∧ y + 1 < h) := by
  unfold interiorPixels
  simp only [List.mem_flatMap, List.mem_map, List.mem_range]
  constructor
  · rintro ⟨j, hj, i, hi, heq⟩
    have hiw : i + 1 < w := by omega
    have h1 := pixel_mod (w := w) (x := i + 1) (y := j + 1) hiw
    have h2 := pixel_div (w := w) (x := i + 1) (y := j + 1) hiw
    have h3 := pixel_mod (w := w) (x := x) (y := y) hx
    have h4 := pixel_div (w := w) (x := x) (y := y) hx
    rw [heq] at h1 h2
    omega
  · rintro ⟨h1, h2, h3, h4⟩
    refine ⟨y - 1, by omega, x - 1, by omega, ?_⟩
    have hy : y - 1 + 1 = y := by omega
    have hx2 : x - 1 + 1 = x := by omega
    rw [hy, hx2]

theorem applySobelEdgeDetectionIP_data (img : ImageDataQ) (low high : ℚ) (j : ℕ) :
    (applySobelEdgeDetectionIP img low high).data j
      = if j / 4 ∈ interiorPixels img.width img.height then
          (if j % 4 = 3 then 255
           else classify (sobelMag img (j / 4 % img.width) (j / 4 / img.width)) low high)
        else 0 :=
  foldl_writeQuad_eval
    (fun p => classify (sobelMag img (p % img.width) (p / img.width)) low high)
    (interiorPixels img.width img.height) (fun _ => 0) j

theorem applySobelFV_eval (img : ImageDataQ) (low high : ℚ) (j : ℕ) :
    applySobelFV img low high j
      = if j ∈ interiorPixels img.width img.height then
          classify (sobelMag img (j % img.width) (j / img.width)) low high
        else 0 :=
  foldl_writePixel_eval
    (fun p => classify (sobelMag img (p % img.width) (p / img.width)) low high)
    (interiorPixels img.width img.height) (fun _ => 0) j

theorem sobelIP_at (img : ImageDataQ) (low high : ℚ) (x y c : ℕ)
    (hx : x < img.width) (hc : c < 4) :
    (applySobelEdgeDetectionIP img low high).data (4 * (y * img.width + x) + c)
      = if 1 ≤ x ∧ x + 1 < img.width ∧ 1 ≤ y ∧ y + 1 < img.height then
          (if c = 3 then 255 else classify (sobelMag img x y) low high)
        else 0 := by
  rw [applySobelEdgeDetectionIP_data]
  have hj4 : (4 * (y * img.width + x) + c) / 4 = y * img.width + x := by omega
  have hjm : (4 * (y * img.width + x) + c) % 4 = c := by omega
  rw [hj4, hjm, pixel_mod hx, pixel_div hx]
  by_cases hI : 1 ≤ x ∧ x + 1 < img.width ∧ 1 ≤ y ∧ y + 1 < img.height
  · rw [if_pos ((mem_interiorPixels hx).2 hI), if_pos hI]
  · rw [if_neg (fun hm => hI ((mem_interiorPixels hx).1 hm)), if_neg hI]

theorem sobelFV_at (img : ImageDataQ) (low high : ℚ) (x y : ℕ) (hx : x < img.width) :
    applySobelFV img low high (y * img.width + x)
      = if 1 ≤ x ∧ x + 1 < img.width ∧ 1 ≤ y ∧ y + 1 < img.height then
          classify (sobelMag img x y) low high
        else 0 := by
  rw [applySobelFV_eval, pixel_mod hx, pixel_div hx]
  by_cases hI : 1 ≤ x ∧ x + 1 < img.width ∧ 1 ≤ y ∧ y + 1 < img.height
  · rw [if_pos ((mem_interiorPixels hx).2 hI), if_pos hI]
  · rw [if_neg (fun hm => hI ((mem_interiorPixels hx).1 hm)), if_neg hI]

theorem convertToGrayscale_channel (img : ImageDataQ) (i : ℕ) (h : ¬(i % 4 = 3)) :
    (convertToGrayscale img).data i
      = uint8Clamp ((img.data (4 * (i / 4)) : ℚ) * 0.299
          + (img.data (4 * (i / 4) + 1) : ℚ) * 0.587
          + (img.data (4 * (i / 4) + 2) : ℚ) * 0.114) := by
  unfold convertToGrayscale
  exact if_neg h

theorem convertToGrayscale_alpha (img : ImageDataQ) (i : ℕ) (h : i % 4 = 3) :
    (convertToGrayscale img).data i = img.data i := by
  unfold convertToGrayscale
  exact if_pos h

theorem lum_of_equal (k : ℕ) :
    (k : ℚ) * 0.299 + (k : ℚ) * 0.587 + (k : ℚ) * 0.114 = (k : ℚ) := by
  ring_nf

/-- C7: the grayscale stage is idempotent — for every buffer, applying the
grayscale conversion (luminance `0.299*R + 0.587*G + 0.114*B` written back
into R, G, B, stored through the 8-bit clamped store) twice yields the same
stored samples as applying it once, at every index. -/
theorem c7_grayscale_idempotent (img : ImageDataQ) (i : ℕ) :
    (convertToGrayscale (convertToGrayscale img)).data i = (convertToGrayscale img).data i := by
  by_cases h : i % 4 = 3
  · rw [convertToGrayscale_alpha _ _ h]
  · rw [convertToGrayscale_channel _ _ h,
      convertToGrayscale_channel img (4 * (i / 4)) (by omega),
      convertToGrayscale_channel img (4 * (i / 4) + 1) (by omega),
      convertToGrayscale_channel img (4 * (i / 4) + 2) (by omega)]
    have d0 : (4 * (i / 4)) / 4 = i / 4 := by omega
    have d1 : (4 * (i / 4) + 1) / 4 = i / 4 := by omega
    have d2 : (4 * (i / 4) + 2) / 4 = i / 4 := by omega
    rw [d0, d1, d2, lum_of_equal, convertToGrayscale_channel img i h]
    exact uint8Clamp_natCast _ (uint8Clamp_le_255 _)

/-- C8: invoking either pipeline with both grayscale and edge detection
disabled returns the input buffer unchanged (a pass-through), for every
input buffer and any thresholds and blur size. -/
theorem c8_disabled_passthrough (img : ImageDataQ) (t1 t2 : ℚ) (bs : ℤ) :
    processImageIP img ⟨t1, t2, bs, false, false⟩ = img
      ∧ processImageFV img ⟨t1, t2, bs, false, false⟩ = img :=
  ⟨rfl, rfl⟩

/-- C10: with an inverted threshold pair (`lowThreshold ≥ highThreshold`,
which the pipeline does not reject), the classification never produces the
weak-edge level 128: every magnitude classifies to 0 or 255, and any
magnitude above `highThreshold` classifies strong (255) regardless of
`lowThreshold`, because the `highThreshold` comparison is tested first. -/
theorem c10_inverted_thresholds (m : ℝ) (low high : ℚ) (h : high ≤ low) :
    classify m low high ≠ 128
      ∧ (classify m low high = 0 ∨ classify m low high = 255)
      ∧ ((high : ℝ) < m → classify m low high = 255) := by
  unfold classify
  by_cases hm : (high : ℝ) < m
  · simp [hm]
  · have hlow : ¬((low : ℝ) < m) := by
      push_neg at hm ⊢
      calc m ≤ (high : ℝ) := hm
        _ ≤ (low : ℝ) := by exact_mod_cast h
    simp [hm, hlow]

/-- Witness for C10 at the concrete instance `magnitude = 300`,
`lowThreshold = 150`, `highThreshold = 50`. -/
theorem c10_witness :
    classify 300 150 50 ≠ 128
      ∧ (classify 300 150 50 = 0 ∨ classify 300 150 50 = 255)
      ∧ (((50 : ℚ) : ℝ) < 300 → classify 300 150 50 = 255) :=
  c10_inverted_thresholds 300 150 50 (by norm_num)

/-- C5: in both implementations the gradient stage evaluates the fixed Sobel
kernel pair on the red channel and the magnitude `sqrt(Gx² + Gy²)` only at
interior pixels; every border pixel (row 0, last row, column 0, last column)
produces 0 — the border is excluded from gradient evaluation entirely. -/
theorem c5_border_gradient_zero (img : ImageDataQ) (low high : ℚ) (x y : ℕ)
    (hx : x < img.width) (hy : y < img.height) :
    ((x = 0 ∨ x + 1 = img.width ∨ y = 0 ∨ y + 1 = img.height) →
      (∀ c, c < 4 → (applySobelEdgeDetectionIP img low high).data (4 * (y * img.width + x) + c) = 0)
        ∧ applySobelFV img low high (y * img.width + x) = 0)
    ∧ ((1 ≤ x ∧ x + 1 < img.width ∧ 1 ≤ y ∧ y + 1 < img.height) →
      (∀ c, c < 3 → (applySobelEdgeDetectionIP img low high).data (4 * (y * img.width + x) + c)
          = classify (sobelMag img x y) low high)
        ∧ applySobelFV img low high (y * img.width + x) = classify (sobelMag img x y) low high) := by
  constructor
  · intro hb
    have hint : ¬(1 ≤ x ∧ x + 1 < img.width ∧ 1 ≤ y ∧ y + 1 < img.height) := by omega
    constructor
    · intro c hc
      rw [sobelIP_at img low high x y c hx hc, if_neg hint]
    · rw [sobelFV_at img low high x y hx, if_neg hint]
  · intro hI
    constructor
    · intro c hc
      rw [sobelIP_at img low high x y c hx (by omega), if_pos hI, if_neg (by omega : ¬(c = 3))]
    · rw [sobelFV_at img low high x y hx, if_pos hI]

/-- Witness for C5: on the concrete 3×3 step buffer, the border pixel (0,0)
classifies to 0 in both implementations (all four channels in the
ImageProcessor output). -/
theorem c5_witness :
    (∀ c, c < 4 → (applySobelEdgeDetectionIP img3step 50 150).data (4 * (0 * img3step.width + 0) + c) = 0)
      ∧ applySobelFV img3step 50 150 (0 * img3step.width + 0) = 0 :=
  (c5_border_gradient_zero img3step 50 150 0 0 (by decide) (by decide)).1 (Or.inl rfl)

/-- C4 as amended: for `lowThreshold ≤ highThreshold` the classification maps
`m > high` to 255, `low < m ≤ high` to 128 and `m ≤ low` to 0; the level is
written into all three color channels.  Alpha is forced to 255 at every pixel
the classification loop writes — the interior pixels — and at every pixel of
the FrameViewer pipeline output (its copy-back loop covers the whole buffer);
in the ImageProcessor implementation border pixels are never written, so
their alpha stays 0 rather than 255. -/
theorem c4_classification_amended :
    (∀ (m : ℝ) (low high : ℚ), low ≤ high →
      (((high : ℝ) < m → classify m low high = 255)
        ∧ (((low : ℝ) < m ∧ m ≤ (high : ℝ)) → classify m low high = 128)
        ∧ (m ≤ (low : ℝ) → classify m low high = 0)))
    ∧ (∀ (img : ImageDataQ) (low high : ℚ) (x y : ℕ), x < img.width →
        (1 ≤ x ∧ x + 1 < img.width ∧ 1 ≤ y ∧ y + 1 < img.height) →
        ((∀ c, c < 3 → (applySobelEdgeDetectionIP img low high).data (4 * (y * img.width + x) + c)
            = classify (sobelMag img x y) low high)
          ∧ (applySobelEdgeDetectionIP img low high).data (4 * (y * img.width + x) + 3) = 255))
    ∧ (∀ (img : ImageDataQ) (t1 t2 : ℚ) (bs : ℤ) (g : Bool) (i : ℕ), i % 4 = 3 →
        (processImageFV img ⟨t1, t2, bs, g, true⟩).data i = 255) := by
  refine ⟨?_, ?_, ?_⟩
  · intro m low high hlh
    refine ⟨fun hm => ?_, fun hm => ?_, fun hm => ?_⟩
    · unfold classify
      rw [if_pos hm]
    · unfold classify
      rw [if_neg (not_lt.2 hm.2), if_pos hm.1]
    · unfold classify
      have hc : ((low : ℚ) : ℝ) ≤ ((high : ℚ) : ℝ) := by exact_mod_cast hlh
      rw [if_neg (not_lt.2 (le_trans hm hc)), if_neg (not_lt.2 hm)]
  · intro img low high x y hx hI
    constructor
    · intro c hc
      rw [sobelIP_at img low high x y c hx (by omega), if_pos hI, if_neg (by omega : ¬(c = 3))]
    · rw [sobelIP_at img low high x y 3 hx (by omega), if_pos hI, if_pos rfl]
  · intro img t1 t2 bs g i hi
    simp [processImageFV, hi]

/-- Witness for C4 at concrete inputs: magnitudes 200, 100 and 10 against
thresholds (50, 150), and the interior pixel (1,1) of the 3×3 step buffer. -/
theorem c4_witness :
    classify 200 50 150 = 255 ∧ classify 100 50 150 = 128 ∧ classify 10 50 150 = 0
      ∧ (applySobelEdgeDetectionIP img3step 50 150).data (4 * (1 * img3step.width + 1) + 3) = 255 :=
  ⟨(c4_classification_amended.1 200 50 150 (by norm_num)).1 (by norm_num),
   (c4_classification_amended.1 100 50 150 (by norm_num)).2.1 (by constructor <;> norm_num),
   (c4_classification_amended.1 10 50 150 (by norm_num)).2.2 (by norm_num),
   (c4_classification_amended.2.1 img3step 50 150 1 1 (by decide) (by decide)).2⟩

/-- C4 counterexample: the claim forces alpha to 255 at *every* output pixel
including the border, but in the ImageProcessor implementation the border
pixel (0,0) of the classification output keeps alpha 0 (index 3 of the
zero-filled allocation is never written). -/
theorem c4_counterexample :
    (applySobelEdgeDetectionIP img3step 50 150).data 3 = 0
      ∧ ¬((applySobelEdgeDetectionIP img3step 50 150).data 3 = 255) := by
  have h : (applySobelEdgeDetectionIP img3step 50 150).data 3 = 0 := by
    rw [applySobelEdgeDetectionIP_data, if_neg (by decide)]
  exact ⟨h, by rw [h]; omega⟩

theorem width_pos_of_index {img : ImageDataQ} {i : ℕ}
    (hi : i < 4 * (img.width * img.height)) : 0 < img.width := by
  rcases Nat.eq_zero_or_pos img.width with h0 | h0
  · rw [h0] at hi
    simp at hi
  · exact h0

theorem coords_of_index {img : ImageDataQ} {i : ℕ}
    (hi : i < 4 * (img.width * img.height)) :
    i / 4 % img.width < img.width ∧ i / 4 / img.width < img.height := by
  have hw := width_pos_of_index hi
  have hp : i / 4 < img.width * img.height := by omega
  refine ⟨Nat.mod_lt _ hw, ?_⟩
  rw [Nat.div_lt_iff_lt_mul hw]
  calc i / 4 < img.width * img.height := hp
    _ = img.height * img.width := Nat.mul_comm _ _

theorem index_recompose {img : ImageDataQ} {i : ℕ}
    (hi : i < 4 * (img.width * img.height)) :
    (i / 4 / img.width * img.width + i / 4 % img.width) * 4 + i % 4 = i := by
  have h1 : img.width * (i / 4 / img.width) + i / 4 % img.width = i / 4 :=
    Nat.div_add_mod _ _
  rw [Nat.mul_comm (i / 4 / img.width) img.width, h1]
  omega

theorem blurFV_zero_id (img : ImageDataQ) (i : ℕ)
    (hi : i < 4 * (img.width * img.height)) (hb : img.data i ≤ 255) (hc : ¬(i % 4 = 3)) :
    (applyGaussianBlurFV img 0).data i = img.data i := by
  obtain ⟨hx, hyy⟩ := coords_of_index hi
  simp only [applyGaussianBlurFV]
  rw [if_neg hc, neg_zero, Finset.Icc_self,
    Finset.sum_singleton, Finset.sum_singleton, Finset.sum_singleton, Finset.sum_singleton]
  have hcnd : (0 : ℤ) ≤ ((i / 4 % img.width : ℕ) : ℤ) + 0
      ∧ ((i / 4 % img.width : ℕ) : ℤ) + 0 < (img.width : ℤ)
      ∧ (0 : ℤ) ≤ ((i / 4 / img.width : ℕ) : ℤ) + 0
      ∧ ((i / 4 / img.width : ℕ) : ℤ) + 0 < (img.height : ℤ) := by
    refine ⟨by positivity, ?_, by positivity, ?_⟩
    · rw [add_zero]
      exact_mod_cast hx
    · rw [add_zero]
      exact_mod_cast hyy
  rw [if_pos hcnd, if_pos hcnd]
  have hidx : ((((i / 4 / img.width : ℕ) : ℤ) + 0).toNat * img.width
      + ((((i / 4 % img.width : ℕ) : ℤ)) + 0).toNat) * 4 + i % 4 = i := by
    rw [add_zero, add_zero, Int.toNat_natCast, Int.toNat_natCast]
    exact index_recompose hi
  rw [hidx, div_one]
  exact uint8Clamp_natCast _ hb

theorem gaussianWeight_one : gaussianWeight 1 (0 + 0) (0 + 0) = 1 := by
  unfold gaussianWeight
  rw [show Int.fdiv 1 2 = 0 from rfl]
  norm_num [Real.exp_zero]

theorem clampCoord_id {x : ℕ} {n : ℕ} (h : x < n) : clampCoord ((x : ℤ) + 0) n = x := by
  unfold clampCoord
  omega

theorem blurIP_one_id (img : ImageDataQ) (i : ℕ)
    (hi : i < 4 * (img.width * img.height)) (hb : img.data i ≤ 255) (hc : ¬(i % 4 = 3)) :
    (applyGaussianBlurIP img 1).data i = img.data i := by
  obtain ⟨hx, hyy⟩ := coords_of_index hi
  simp only [applyGaussianBlurIP]
  rw [if_neg hc]
  rw [show Int.fdiv 1 2 = 0 from rfl, neg_zero, Finset.Icc_self,
    Finset.sum_singleton, Finset.sum_singleton, Finset.sum_singleton, Finset.sum_singleton]
  rw [gaussianWeight_one, mul_one]
  have hidx : (clampCoord (((i / 4 / img.width : ℕ) : ℤ) + 0) img.height * img.width
      + clampCoord (((i / 4 % img.width : ℕ) : ℤ) + 0) img.width) * 4 + i % 4 = i := by
    rw [clampCoord_id hyy, clampCoord_id hx]
    exact index_recompose hi
  rw [hidx, div_one]
  exact uint8Clamp_natCast _ hb

/-- C6: running the smoothing stage with radius 0 is the identity transform
on the color channels.  For the FrameViewer box blur the `size` parameter is
the radius, so this is `size = 0`; for the ImageProcessor Gaussian blur the
radius is `Math.floor(kernelSize / 2)`, so radius 0 is the `kernelSize = 1`
invocation, whose single kernel weight is `exp(0) = 1`. -/
theorem c6_blur_radius_zero_identity :
    (∀ (img : ImageDataQ) (i : ℕ), i < 4 * (img.width * img.height) → img.data i ≤ 255 →
      ¬(i % 4 = 3) → (applyGaussianBlurFV img 0).data i = img.data i)
    ∧ (∀ (img : ImageDataQ) (i : ℕ), i < 4 * (img.width * img.height) → img.data i ≤ 255 →
      ¬(i % 4 = 3) → (applyGaussianBlurIP img 1).data i = img.data i) :=
  ⟨blurFV_zero_id, blurIP_one_id⟩

/-- Witness for C6 on the red channel of the 1×1 red buffer. -/
theorem c6_witness :
    (applyGaussianBlurFV img1red 0).data 0 = img1red.data 0
      ∧ (applyGaussianBlurIP img1red 1).data 0 = img1red.data 0 :=
  ⟨c6_blur_radius_zero_identity.1 img1red 0 (by decide) (by decide) (by decide),
   c6_blur_radius_zero_identity.2 img1red 0 (by decide) (by decide) (by decide)⟩

theorem listData_le (l : List ℕ) (h : ∀ v ∈ l, v ≤ 255) (j : ℕ) : listData l j ≤ 255 := by
  unfold listData
  rcases lt_or_ge j l.length with hj | hj
  · rw [List.getD_eq_getElem l 0 hj]
    exact h _ (List.getElem_mem hj)
  · rw [List.getD_eq_default l 0 hj]
    omega

theorem img3step_data_le (j : ℕ) : img3step.data j ≤ 255 :=
  listData_le _ (by decide) j

theorem sobelGx_ext {img1 img2 : ImageDataQ} (hw : img1.width = img2.width)
    (hd : ∀ j, img1.data j = img2.data j) (x y : ℕ) :
    sobelGx img1 x y = sobelGx img2 x y := by
  unfold sobelGx
  rw [hw]
  refine Finset.sum_congr rfl fun ky _ => Finset.sum_congr rfl fun kx _ => ?_
  rw [hd]

theorem sobelGy_ext {img1 img2 : ImageDataQ} (hw : img1.width = img2.width)
    (hd : ∀ j, img1.data j = img2.data j) (x y : ℕ) :
    sobelGy img1 x y = sobelGy img2 x y := by
  unfold sobelGy
  rw [hw]
  refine Finset.sum_congr rfl fun ky _ => Finset.sum_congr rfl fun kx _ => ?_
  rw [hd]

theorem blur0_img3step (j : ℕ) :
    (applyGaussianBlurFV img3step 0).data j = img3step.data j := by
  by_cases hc : j % 4 = 3
  · simp only [applyGaussianBlurFV]
    rw [if_pos hc]
  · by_cases hj : j < 36
    · refine blurFV_zero_id img3step j ?_ (img3step_data_le j) hc
      show j < 4 * (3 * 3)
      omega
    · have himg : img3step.data j = 0 := by
        show listData _ j = 0
        unfold listData
        rw [List.getD_eq_default _ _ (by simp; omega)]
      rw [himg]
      simp only [applyGaussianBlurFV]
      rw [if_neg hc, neg_zero, Finset.Icc_self, Finset.sum_singleton, Finset.sum_singleton,
        Finset.sum_singleton, Finset.sum_singleton]
      have hww : img3step.width = 3 := rfl
      have hhh : img3step.height = 3 := rfl
      have hy3 : ¬((0 : ℤ) ≤ ((j / 4 % img3step.width : ℕ) : ℤ) + 0
          ∧ ((j / 4 % img3step.width : ℕ) : ℤ) + 0 < (img3step.width : ℤ)
          ∧ (0 : ℤ) ≤ ((j / 4 / img3step.width : ℕ) : ℤ) + 0
          ∧ ((j / 4 / img3step.width : ℕ) : ℤ) + 0 < (img3step.height : ℤ)) := by
        intro hcond
        obtain ⟨-, -, -, h4⟩ := hcond
        rw [add_zero, hww, hhh] at h4
        have h5 : j / 4 / 3 < 3 := by exact_mod_cast h4
        omega
      rw [if_neg hy3, if_neg hy3]
      simp [uint8Clamp]

/-- C9: on the 3×3 intensity-step buffer (left column 0, right two columns
255) with blur radius 0, the gradient stage yields at the single interior
pixel (1,1) a nonzero `Gx`, `Gy = 0`, and magnitude `|Gx|`. -/
theorem c9_step_gradient :
    sobelGx (applyGaussianBlurFV img3step 0) 1 1 ≠ 0
      ∧ sobelGy (applyGaussianBlurFV img3step 0) 1 1 = 0
      ∧ sobelMag (applyGaussianBlurFV img3step 0) 1 1
          = |((sobelGx (applyGaussianBlurFV img3step 0) 1 1 : ℤ) : ℝ)| := by
  have hw : (applyGaussianBlurFV img3step 0).width = img3step.width := rfl
  have hgx : sobelGx (applyGaussianBlurFV img3step 0) 1 1 = 1020 := by
    rw [sobelGx_ext hw blur0_img3step]
    decide
  have hgy : sobelGy (applyGaussianBlurFV img3step 0) 1 1 = 0 := by
    rw [sobelGy_ext hw blur0_img3step]
    decide
  refine ⟨by rw [hgx]; norm_num, hgy, ?_⟩
  unfold sobelMag
  rw [hgx, hgy]
  rw [show ((1020 * 1020 + 0 * 0 : ℤ) : ℝ) = (1020 : ℝ) ^ 2 by norm_num,
    Real.sqrt_sq (by norm_num : (0 : ℝ) ≤ 1020)]
  norm_num

theorem uint8Clamp_76245 : uint8Clamp (76.245 : ℚ) = 76 := by
  unfold uint8Clamp roundHalfEven
  norm_num
  decide

theorem gray_img1red_0 : (convertToGrayscale img1red).data 0 = 76 := by
  rw [convertToGrayscale_channel img1red 0 (by omega)]
  have h0 : img1red.data (4 * (0 / 4)) = 255 := rfl
  have h1 : img1red.data (4 * (0 / 4) + 1) = 0 := rfl
  have h2 : img1red.data (4 * (0 / 4) + 2) = 0 := rfl
  rw [h0, h1, h2,
    show ((255 : ℕ) : ℚ) * 0.299 + ((0 : ℕ) : ℚ) * 0.587 + ((0 : ℕ) : ℚ) * 0.114 = 76.245
      by norm_num]
  exact uint8Clamp_76245

/-- C1 counterexample: `ImageProcessor.processImage` with grayscale enabled
mutates the caller's buffer in place (`convertToGrayscale` writes into the
argument's array): after the call on the 1×1 red buffer, the caller's red
sample is 76 — the grayscale of red — not the original 255, so the source
buffer is not pixel-equal before and after. -/
theorem c1_counterexample :
    (processImageIPSourceAfter img1red ⟨50, 150, 5, true, false⟩).data 0 = 76
      ∧ img1red.data 0 = 255 := by
  constructor
  · show (convertToGrayscale img1red).data 0 = 76
    exact gray_img1red_0
  · rfl

/-- C1 as amended: the FrameViewer pipeline preserves the stored original
(`render` processes a fresh copy of `originalImageData`), and
`ImageProcessor.processImage` leaves the caller's buffer untouched when both
stages are disabled; but whenever grayscale or edge detection is enabled,
`ImageProcessor.processImage` overwrites the caller's buffer in place with its
grayscale. -/
theorem c1_source_preservation_amended :
    (∀ (img : ImageDataQ) (options : ProcessingOptions),
      options.grayscale = false → options.edgeDetection = false →
      processImageIPSourceAfter img options = img)
    ∧ (∀ (img : ImageDataQ) (options : ProcessingOptions),
      (options.grayscale = true ∨ options.edgeDetection = true) →
      processImageIPSourceAfter img options = convertToGrayscale img)
    ∧ (∀ (orig : ImageDataQ) (options : ProcessingOptions),
      (renderFV orig options).1 = orig) := by
  refine ⟨?_, ?_, ?_⟩
  · intro img options h1 h2
    unfold processImageIPSourceAfter
    rw [h1, h2]
    rfl
  · intro img options h
    unfold processImageIPSourceAfter
    rcases h with h | h <;> rw [h] <;> simp
  · intro orig options
    rfl

/-- Witness for C1 with both stages disabled on the 1×1 red buffer, and a
FrameViewer render of it. -/
theorem c1_witness :
    processImageIPSourceAfter img1red ⟨50, 150, 5, false, false⟩ = img1red
      ∧ (renderFV img1red ⟨50, 150, 5, true, true⟩).1 = img1red :=
  ⟨c1_source_preservation_amended.1 img1red ⟨50, 150, 5, false, false⟩ rfl rfl,
   c1_source_preservation_amended.2.2 img1red ⟨50, 150, 5, true, true⟩⟩

/-- C2 counterexample: on the invalid configuration
`lowThreshold = 200 > highThreshold = 50` with negative blur size, the
pipeline does not fail fast: `processImage` runs the grayscale stage anyway
and returns its output (red sample 76, the grayscale of the input's 255) —
no validation error is ever produced. -/
theorem c2_counterexample :
    (processImageIP img1red ⟨200, 50, -1, true, false⟩).data 0 = 76
      ∧ img1red.data 0 = 255 := by
  constructor
  · show (convertToGrayscale img1red).data 0 = 76
    exact gray_img1red_0
  · rfl

/-- C2 as amended: the pipeline performs no validation at all — for every
buffer and every configuration (including inverted thresholds and negative
blur size) `processImage` unconditionally runs the stages selected by the
flags and returns their output. -/
theorem c2_no_validation_amended (img : ImageDataQ) (options : ProcessingOptions) :
    (options.edgeDetection = true →
      processImageIP img options
        = applySobelEdgeDetectionIP
            (applyGaussianBlurIP (convertToGrayscale img) options.blurSize)
            options.threshold1 options.threshold2)
    ∧ (options.edgeDetection = false → options.grayscale = true →
      processImageIP img options = convertToGrayscale img)
    ∧ (options.edgeDetection = false → options.grayscale = false →
      processImageIP img options = img) := by
  refine ⟨fun he => ?_, fun he hg => ?_, fun he hg => ?_⟩
  · unfold processImageIP
    rw [he]
    simp
  · unfold processImageIP
    rw [he, hg]
    simp
  · unfold processImageIP
    rw [he, hg]
    simp

/-- Witness for C2: with edge detection on and the invalid configuration
`(200, 50, -1)`, the stages still run. -/
theorem c2_witness :
    processImageIP img1red ⟨200, 50, -1, false, true⟩
      = applySobelEdgeDetectionIP (applyGaussianBlurIP (convertToGrayscale img1red) (-1)) 200 50 :=
  (c2_no_validation_amended img1red ⟨200, 50, -1, false, true⟩).1 rfl

theorem applyGaussianBlurFV_eq_specBoxBlur (img : ImageDataQ) (r : ℤ) (i : ℕ) :
    (applyGaussianBlurFV img r).data i = (specBoxBlur img r).data i := by
  simp only [applyGaussianBlurFV, specBoxBlur]
  by_cases hc : i % 4 = 3
  · rw [if_pos hc, if_pos hc]
  · rw [if_neg hc, if_neg hc]
    congr 1
    rw [Finset.sum_filter, Finset.sum_product]
    unfold inBoundsCount
    rw [Finset.card_filter]
    push_cast
    rw [Finset.sum_product]

theorem inBoundsCount_corner {s wd ht : ℕ} (hw : s + 1 ≤ wd) (hh : s + 1 ≤ ht) :
    inBoundsCount wd ht 0 0 (s : ℤ) = (s + 1) * (s + 1) := by
  unfold inBoundsCount
  have hfil : ((Finset.Icc (-(s : ℤ)) s ×ˢ Finset.Icc (-(s : ℤ)) s).filter (fun d =>
      0 ≤ ((0 : ℕ) : ℤ) + d.2 ∧ ((0 : ℕ) : ℤ) + d.2 < (wd : ℤ)
        ∧ 0 ≤ ((0 : ℕ) : ℤ) + d.1 ∧ ((0 : ℕ) : ℤ) + d.1 < (ht : ℤ)))
      = Finset.Icc (0 : ℤ) s ×ˢ Finset.Icc (0 : ℤ) s := by
    ext d
    simp only [Finset.mem_filter, Finset.mem_product, Finset.mem_Icc]
    omega
  rw [hfil, Finset.card_product, Int.card_Icc]
  have : ((s : ℤ) + 1 - 0).toNat = s + 1 := by omega
  rw [this]

theorem inBoundsCount_center {s wd ht : ℕ} (hw : 2 * s + 1 ≤ wd) (hh : 2 * s + 1 ≤ ht) :
    inBoundsCount wd ht s s (s : ℤ) = (2 * s + 1) * (2 * s + 1) := by
  unfold inBoundsCount
  rw [Finset.filter_true_of_mem ?_]
  · rw [Finset.card_product, Int.card_Icc]
    have : ((s : ℤ) + 1 - -(s : ℤ)).toNat = 2 * s + 1 := by omega
    rw [this]
  · intro d hd
    simp only [Finset.mem_product, Finset.mem_Icc] at hd
    omega

theorem sum_Icc_neg_one_one (f : ℤ → ℝ) :
    Finset.sum (Finset.Icc (-1 : ℤ) 1) f = f (-1) + f 0 + f 1 := by
  rw [show Finset.Icc (-1 : ℤ) 1 = {-1, 0, 1} by decide]
  rw [Finset.sum_insert (by decide), Finset.sum_insert (by decide), Finset.sum_singleton]
  ring

theorem exp_neg_one_bounds : 1/4 < Real.exp (-1) ∧ Real.exp (-1) < 37/100 := by
  have hgt1 : (2.7182818283 : ℝ) < Real.exp 1 := Real.exp_one_gt_d9
  have hlt1 : Real.exp 1 < 2.7182818286 := Real.exp_one_lt_d9
  have hinv : Real.exp (-1) * Real.exp 1 = 1 := by
    rw [← Real.exp_add]
    norm_num [Real.exp_zero]
  have hE1pos : 0 < Real.exp (-1) := Real.exp_pos _
  constructor
  · nlinarith [hinv, hlt1, hE1pos]
  · nlinarith [hinv, hgt1, hE1pos]

theorem exp_neg_half_bounds : 1/2 < Real.exp (-(1/2)) ∧ Real.exp (-(1/2)) < 7/10 := by
  have hsq : Real.exp (-(1/2)) * Real.exp (-(1/2)) = Real.exp (-1) := by
    rw [← Real.exp_add]
    norm_num
  have hp : 0 < Real.exp (-(1/2)) := Real.exp_pos _
  obtain ⟨hlo, hhi⟩ := exp_neg_one_bounds
  constructor
  · nlinarith [hsq, hlo, hp]
  · nlinarith [hsq, hhi, hp]

theorem exp_neg_92_lt : Real.exp (-(9/2)) < 41/1000 := by
  have h9 : Real.exp (-(9/2)) = Real.exp (-(1/2)) ^ 9 := by
    rw [show (-(9/2) : ℝ) = (9 : ℕ) * (-(1/2)) by norm_num, Real.exp_nat_mul]
  obtain ⟨-, hhi⟩ := exp_neg_half_bounds
  have hp : (0 : ℝ) ≤ Real.exp (-(1/2)) := le_of_lt (Real.exp_pos _)
  have := pow_lt_pow_left hhi hp (by norm_num : (9 : ℕ) ≠ 0)
  rw [h9]
  calc Real.exp (-(1/2)) ^ 9 < (7/10) ^ 9 := this
    _ < 41/1000 := by norm_num

theorem blurIP_twoByOne_eval :
    (applyGaussianBlurIP twoByOne 3).data 0
      = uint8Clamp ((255 * Real.exp (-1) + 255 * Real.exp (-(1 / 2)) + 255 * Real.exp (-1)) /
          (Real.exp (-1) + Real.exp (-(1 / 2)) + Real.exp (-1)
            + (Real.exp (-(1 / 2)) + 1 + Real.exp (-(1 / 2)))
            + (Real.exp (-1) + Real.exp (-(1 / 2)) + Real.exp (-1)))) := by
  have hW : twoByOne.width = 2 := rfl
  have hH : twoByOne.height = 1 := rfl
  have hd0 : twoByOne.data 0 = 0 := rfl
  have hd4 : twoByOne.data 4 = 255 := rfl
  simp only [applyGaussianBlurIP]
  rw [if_neg (by norm_num)]
  simp only [sum_Icc_neg_one_one, show Int.fdiv 3 2 = 1 from rfl]
  norm_num [clampCoord, hW, hH, hd0, hd4, gaussianWeight, Real.exp_zero,
    show Int.fdiv 3 2 = 1 from rfl]

theorem specGaussBlur_twoByOne_eval :
    (specGaussExclusionBlur twoByOne 1).data 0
      = uint8Clamp (255 * Real.exp (-(9 / 2)) / (1 + Real.exp (-(9 / 2)))) := by
  have hW : twoByOne.width = 2 := rfl
  have hH : twoByOne.height = 1 := rfl
  have hd0 : twoByOne.data 0 = 0 := rfl
  have hd4 : twoByOne.data 4 = 255 := rfl
  simp only [specGaussExclusionBlur]
  rw [if_neg (by norm_num)]
  simp only [sum_Icc_neg_one_one]
  norm_num [hW, hH, hd0, hd4, Real.exp_zero]

/-- C3 counterexample: at pixel (0,0) of the 2×1 buffer (black, white), with
kernel size 3 (radius 1), the ImageProcessor smoothing stage — which clamps
out-of-bounds coordinates onto the border and divides by the full kernel
weight sum — stores a different byte (between 63 and 75) than the spec's
exclusion-weighted average with `σ = r/3` (below 11), so the stage does not
compute the spec's excluded-sample average. -/
theorem c3_counterexample :
    (applyGaussianBlurIP twoByOne 3).data 0 ≠ (specGaussExclusionBlur twoByOne 1).data 0 := by
  rw [blurIP_twoByOne_eval, specGaussBlur_twoByOne_eval]
  obtain ⟨hgt, hlt⟩ := exp_neg_half_bounds
  have hE1 : Real.exp (-1) = Real.exp (-(1/2)) * Real.exp (-(1/2)) := by
    rw [← Real.exp_add]
    norm_num
  have hEp : (0 : ℝ) < Real.exp (-(1/2)) := Real.exp_pos _
  have hsp : (0 : ℝ) < Real.exp (-(9/2)) := Real.exp_pos _
  have hs41 := exp_neg_92_lt
  have hDpos : (0 : ℝ) < Real.exp (-1) + Real.exp (-(1 / 2)) + Real.exp (-1)
      + (Real.exp (-(1 / 2)) + 1 + Real.exp (-(1 / 2)))
      + (Real.exp (-1) + Real.exp (-(1 / 2)) + Real.exp (-1)) := by positivity
  have hb1 : 63 ≤ uint8Clamp ((255 * Real.exp (-1) + 255 * Real.exp (-(1 / 2)) + 255 * Real.exp (-1)) /
      (Real.exp (-1) + Real.exp (-(1 / 2)) + Real.exp (-1)
        + (Real.exp (-(1 / 2)) + 1 + Real.exp (-(1 / 2)))
        + (Real.exp (-1) + Real.exp (-(1 / 2)) + Real.exp (-1)))) := by
    apply nat_le_uint8Clamp _ (by norm_num)
    rw [le_div_iff hDpos]
    push_cast
    nlinarith [sq_nonneg (Real.exp (-(1/2)) - 1/2), hgt, hE1]
  have hb2 : uint8Clamp (255 * Real.exp (-(9 / 2)) / (1 + Real.exp (-(9 / 2)))) ≤ 11 := by
    apply uint8Clamp_le_nat _ (by norm_num)
    have hle : 255 * Real.exp (-(9/2)) / (1 + Real.exp (-(9/2))) ≤ 255 * Real.exp (-(9/2)) :=
      div_le_self (by positivity) (by linarith)
    push_cast
    nlinarith [hle, hs41]
  omega

/-- C3 as amended: the FrameViewer smoothing stage does satisfy the exclusion
contract — at every index it equals the spec's box average over the in-bounds
neighborhood samples with divisor the count of in-bounds samples only, and a
corner pixel is averaged over `(r+1)²` samples, fewer than the `(2r+1)²` of an
interior pixel.  The ImageProcessor smoothing stage does not: it clamps
out-of-bounds sample coordinates to the nearest border pixel and divides by
the full kernel weight sum, and so stores a different byte on the 2×1
black/white buffer. -/
theorem c3_smoothing_exclusion_amended :
    (∀ (img : ImageDataQ) (r : ℤ) (i : ℕ),
      (applyGaussianBlurFV img r).data i = (specBoxBlur img r).data i)
    ∧ (∀ (s wd ht : ℕ), 1 ≤ s → 2 * s + 1 ≤ wd → 2 * s + 1 ≤ ht →
      inBoundsCount wd ht 0 0 (s : ℤ) < inBoundsCount wd ht s s (s : ℤ)) := by
  refine ⟨applyGaussianBlurFV_eq_specBoxBlur, fun s wd ht hs hw hh => ?_⟩
  rw [inBoundsCount_corner (by omega) (by omega), inBoundsCount_center hw hh]
  nlinarith [hs]

/-- Witness for C3 on the 3×3 step buffer with radius 1. -/
theorem c3_witness :
    (applyGaussianBlurFV img3step 1).data 0 = (specBoxBlur img3step 1).data 0
      ∧ inBoundsCount 3 3 0 0 ((1 : ℕ) : ℤ) < inBoundsCount 3 3 1 1 ((1 : ℕ) : ℤ) :=
  ⟨c3_smoothing_exclusion_amended.1 img3step 1 0,
   c3_smoothing_exclusion_amended.2 1 3 3 (by norm_num) (by norm_num) (by norm_num)⟩
